import Mathlib

/-!
Verification of the confinuum local synchronization and deployment engine.

Shallow embedding of the core of the `confinuum` dotfile manager:
  * paths and a small filesystem model (regular files, directories, symlinks),
  * the config data model (`ConfigEntry`, `ConfinuumConfig`, src/config.rs),
  * file ingestion (`ConfinuumConfig::add_files_recursive`, src/config.rs),
  * symlink deployment and undeployment (`deploy` / `undeploy`, src/util.rs),
  * the remote-diff partitioning (`diff_entries`, src/git.rs),
  * the mutating commands (`add`, `new`, `delete`, `remove`, `update`,
    src/commands/*.rs) over an abstract git world.

Modelling conventions:
  * A path is its list of components (absolute, already canonical unless a
    symlink object is looked up); a filesystem is an association list from
    paths to objects.  Directories are implicit except where the code reads
    them (`read_dir` during ingestion); parent-directory creation is a no-op.
  * `Path::exists` follows symlinks; the OS bound on the number of links
    followed is modelled by the fuel `followLimit` (Linux uses 40).
  * Machine effects that the code treats as infallible oracles (whether an
    OS `symlink` call succeeds, what the remote returned) are explicit
    parameters.
-/

/-- A filesystem path, as its list of components (e.g. `/home/u/x` is
`["home", "u", "x"]`). -/
abbrev AbsPath := List String

/-- A filesystem object: a regular file with abstract content, a directory
with its list of child names, or a symbolic link to a target path. -/
inductive FsObj where
  | file (content : Nat)
  | dir (children : List String)
  | symlink (target : AbsPath)
deriving DecidableEq

/-- A filesystem: an association list from paths to objects (first match
wins). -/
abbrev FS := List (AbsPath × FsObj)

/-- Look up the object stored at a path (no symlink following; this is
`symlink_metadata` / `is_symlink` / `read_link` territory). -/
def fsLookup (fs : FS) (p : AbsPath) : Option FsObj :=
  match fs with
  | [] => none
  | (q, o) :: rest => if q = p then some o else fsLookup rest p

/-- Remove the object stored at a path (`std::fs::remove_file`). -/
def fsErase (fs : FS) (p : AbsPath) : FS :=
  fs.filter (fun e => ¬ e.1 = p)

/-- Store an object at a path, replacing whatever was there. -/
def fsSet (fs : FS) (p : AbsPath) (o : FsObj) : FS :=
  (p, o) :: fsErase fs p

/-- The OS bound on the number of symlinks followed during path resolution
(Linux: 40, after which `stat` fails with `ELOOP`). -/
def followLimit : Nat := 40

/-- Resolve a path, following symlinks up to the given fuel. -/
def fsResolve (fs : FS) : Nat → AbsPath → Option FsObj
  | 0, _ => none
  | fuel + 1, p =>
    match fsLookup fs p with
    | some (FsObj.symlink t) => fsResolve fs fuel t
    | o => o

/-- `Path::exists`: the path resolves (following symlinks) to an object.
A dangling symlink does not exist in this sense. -/
def fsPathExists (fs : FS) (p : AbsPath) : Bool :=
  (fsResolve fs followLimit p).isSome

/-- A mutating filesystem operation, recorded so that theorems can speak
about which operations a pass performed. -/
inductive FsOp where
  | removeFile (p : AbsPath)
  | copyFile (src dst : AbsPath)
  | mkSymlink (src dst : AbsPath)
deriving DecidableEq

/-- State threaded through a deploy/undeploy pass: the filesystem plus the
trace of mutating operations performed so far. -/
structure DState where
  fs : FS
  ops : List FsOp
deriving DecidableEq

/-- One entry of the confinuum config (src/config.rs `ConfigEntry`): a name,
an optional deployment base directory, and the set of tracked files, each
relative to `target_dir`.  The `HashSet<PathBuf>` is modelled as a list. -/
structure ConfigEntry where
  name : String
  target_dir : Option AbsPath
  files : List AbsPath
deriving DecidableEq

/-- The confinuum config (src/config.rs `ConfinuumConfig`): the map from
entry name to entry, modelled as an association list.  The `confinuum`
host/auth metadata is omitted (not involved in the verified core). -/
structure ConfinuumConfig where
  entries : List (String × ConfigEntry)
deriving DecidableEq

/-- `config.entries.contains_key(name)`. -/
def containsEntry (cfg : ConfinuumConfig) (n : String) : Bool :=
  (cfg.entries.lookup n).isSome

/-- `config.entries.get(name)`. -/
def getEntry (cfg : ConfinuumConfig) (n : String) : Option ConfigEntry :=
  cfg.entries.lookup n

/-- Replace the entry stored under a key. -/
def setEntry (cfg : ConfinuumConfig) (n : String) (e : ConfigEntry) : ConfinuumConfig :=
  ⟨cfg.entries.map (fun p => if p.1 = n then (n, e) else p)⟩

/-- Insert a new entry under a key (`entries.insert`). -/
def insertEntry (cfg : ConfinuumConfig) (n : String) (e : ConfigEntry) : ConfinuumConfig :=
  ⟨(n, e) :: cfg.entries⟩

/-- Remove the entry stored under a key (`entries.remove`). -/
def removeEntry (cfg : ConfinuumConfig) (n : String) : ConfinuumConfig :=
  ⟨cfg.entries.filter (fun p => ¬ p.1 = n)⟩

/-- `ConfinuumConfig::load` sets each entry's `name` field from its map key
after parsing; this mirrors that normalization step. -/
def loadSetNames (cfg : ConfinuumConfig) : ConfinuumConfig :=
  ⟨cfg.entries.map (fun p => (p.1, { p.2 with name := p.1 }))⟩

/-- The shared components of two paths (the `common_path` crate's
`common_path`): the longest common component-wise run, `none` when even the
first components differ. -/
def commonComponents : AbsPath → AbsPath → AbsPath
  | a :: as_, b :: bs => if a = b then a :: commonComponents as_ bs else []
  | _, _ => []

/-- `common_path::common_path`. -/
def commonPath (one two : AbsPath) : Option AbsPath :=
  let c := commonComponents one two
  if c.isEmpty then none else some c

/-- Fold step of `common_path::common_path_all`. -/
def commonPathAllGo (acc : AbsPath) : List AbsPath → Option AbsPath
  | [] => some acc
  | p :: rest =>
    match commonPath acc p with
    | some r => commonPathAllGo r rest
    | none => none

/-- `common_path::common_path_all`: the common ancestor of a set of paths.
For a single path this is the path itself (the crate has no filesystem
access and cannot distinguish a file from a directory). -/
def commonPathAll (paths : List AbsPath) : Option AbsPath :=
  match paths with
  | [] => none
  | first :: rest => commonPathAllGo first rest

/-- `Path::strip_prefix`: drop `base` from the front of `p`, `none` when
`base` is not a prefix. -/
def dropBase (base p : AbsPath) : Option AbsPath :=
  match base, p with
  | [], rest => some rest
  | _ :: _, [] => none
  | b :: bs, x :: xs => if x = b then dropBase bs xs else none

/-- `Path::canonicalize`, modelled as resolving a terminal chain of symlinks
and requiring the path to exist; inputs are assumed to already use canonical
intermediate components. -/
def canonGo (fs : FS) : Nat → AbsPath → Option AbsPath
  | 0, _ => none
  | fuel + 1, p =>
    match fsLookup fs p with
    | some (FsObj.symlink t) => canonGo fs fuel t
    | some _ => some p
    | none => none

/-- Canonicalize a path against the filesystem model. -/
def canonicalizeModel (fs : FS) (p : AbsPath) : Option AbsPath :=
  canonGo fs followLimit p

/-- Errors of `ConfinuumConfig::add_files_recursive` (src/config.rs 51-196). -/
inductive IngestErr where
  | fuelExhausted
  | canonicalizeFail (p : AbsPath)
  | noCommonBase
  | targetMismatch (target base : AbsPath)
  | fileNotFound (p : AbsPath)
  | stripFail (base p : AbsPath)
  | copyFail (src dst : AbsPath)
deriving DecidableEq

/-- Canonicalize one ingestion candidate
(`x.canonicalize().map_err(|e| anyhow!("Failed to canonicalize: {}", e))`). -/
def canonIngest (fs : FS) (p : AbsPath) : Except IngestErr AbsPath :=
  match canonicalizeModel fs p with
  | some c => Except.ok c
  | none => Except.error (IngestErr.canonicalizeFail p)

/-- `std::fs::copy(&file, &source_path)` during ingestion, where the
destination is `files_dir.join(rel)`.  The copy fails on the destination
side when `rel` is empty — `join("")` yields the entry directory path with
a trailing slash, and opening such a path for writing fails with `EISDIR` —
or when an existing directory occupies the destination; it fails on the
source side when the source does not resolve to a regular file's content. -/
def copyIngest (fs : FS) (src dstDir rel : AbsPath) : Except IngestErr FS :=
  if rel = [] then Except.error (IngestErr.copyFail src (dstDir ++ rel))
  else
    match fsLookup fs (dstDir ++ rel) with
    | some (FsObj.dir _) => Except.error (IngestErr.copyFail src (dstDir ++ rel))
    | _ =>
      match fsResolve fs followLimit src with
      | some (FsObj.file c) => Except.ok (fsSet fs (dstDir ++ rel) (FsObj.file c))
      | _ => Except.error (IngestErr.copyFail src (dstDir ++ rel))

/-- The two recursion shapes of `add_files_recursive`: a fresh call on a
candidate list (canonicalize, settle the base, then loop), and the
`for file in canonicalized` loop itself, carrying the new-file accumulators
(`localNew` is this call's `new_files`, `accNew` the files recorded by
completed recursive sub-calls, i.e. the `result_files` contributions). -/
inductive IngestJob where
  | call (e : ConfigEntry) (files : List AbsPath) (base : Option AbsPath)
  | loop (e : ConfigEntry) (base : AbsPath) (files : List AbsPath)
      (localNew accNew : List AbsPath)

/-- `ConfinuumConfig::add_files_recursive` (src/config.rs 51-196), fueled so
that the directory recursion through the filesystem is structural.  A `call`
canonicalizes its candidates; when `base` is `None` it computes
`common_path_all` over the canonicalized candidates, errors if that fails,
errors with the target-mismatch message when the entry already has a
`target_dir` different from the computed base, and otherwise commits the
base as the entry's `target_dir`.  The loop skips directories named `.git`,
recurses into other directories (passing `Some base` down, so the base is
never recomputed), and for a regular file strips the base, copies the
content into `<config_dir>/<entry.name>/<relative>`, and records the
relative path.  At the end of a call the recorded relative paths are
appended to `entry.files` and returned (the caller's `result_files`).
A lone candidate file is its own `common_path_all`, so its relative path is
empty and the copy destination degenerates to the entry directory (trailing
slash): the copy, and with it the whole ingestion, then fails.
Partial filesystem copies made before an error are not tracked (the error
value is returned without a filesystem; no theorem below depends on the
filesystem after a failed ingestion). -/
def ingestGo (cd : AbsPath) : Nat → IngestJob → FS →
    Except IngestErr (ConfigEntry × FS × List AbsPath)
  | 0, _, _ => Except.error IngestErr.fuelExhausted
  | fuel + 1, IngestJob.call e files base, fs =>
    match files.mapM (canonIngest fs) with
    | Except.error err => Except.error err
    | Except.ok canon =>
      match base with
      | some b => ingestGo cd fuel (IngestJob.loop e b canon [] []) fs
      | none =>
        match commonPathAll canon with
        | none => Except.error IngestErr.noCommonBase
        | some b =>
          if e.target_dir.isSome ∧ ¬ e.target_dir = some b then
            Except.error (IngestErr.targetMismatch (e.target_dir.getD []) b)
          else
            ingestGo cd fuel (IngestJob.loop { e with target_dir := some b } b canon [] []) fs
  | _ + 1, IngestJob.loop e _ [] localNew accNew, fs =>
    Except.ok ({ e with files := e.files ++ localNew }, fs, accNew ++ localNew)
  | fuel + 1, IngestJob.loop e b (f :: rest) localNew accNew, fs =>
    if ¬ fsPathExists fs f then Except.error (IngestErr.fileNotFound f)
    else
      match fsLookup fs f with
      | some (FsObj.dir children) =>
        if f.getLast? = some ".git" then
          ingestGo cd fuel (IngestJob.loop e b rest localNew accNew) fs
        else
          match ingestGo cd fuel
              (IngestJob.call e (children.map (fun c => f ++ [c])) (some b)) fs with
          | Except.error err => Except.error err
          | Except.ok (e1, fs1, subNew) =>
            ingestGo cd fuel (IngestJob.loop e1 b rest localNew (accNew ++ subNew)) fs1
      | _ =>
        match dropBase b f with
        | none => Except.error (IngestErr.stripFail b f)
        | some rel =>
          let sourcePath := (cd ++ [e.name]) ++ rel
          match dropBase (cd ++ [e.name]) sourcePath with
          | none => Except.error (IngestErr.stripFail (cd ++ [e.name]) sourcePath)
          | some repoRel =>
            match copyIngest fs f (cd ++ [e.name]) rel with
            | Except.error err => Except.error err
            | Except.ok fs1 =>
              ingestGo cd fuel (IngestJob.loop e b rest (localNew ++ [repoRel]) accNew) fs1

/-- Fuel ample for any concrete ingestion considered here. -/
def ingestFuel : Nat := 1000

/-- Entry point matching the source signature: ingest `files` into `entry`
with an optional pre-computed `base`, returning the updated entry, the
filesystem after the storage copies, and the newly recorded relative paths
(the caller's `result_files`). -/
def add_files_recursive (cd : AbsPath) (fs : FS) (e : ConfigEntry)
    (files : List AbsPath) (base : Option AbsPath) :
    Except IngestErr (ConfigEntry × FS × List AbsPath) :=
  ingestGo cd ingestFuel (IngestJob.call e files base) fs

/-- Errors of `deploy` / `undeploy` (src/util.rs). -/
inductive DeployErr where
  | noEntry (name : String)
  | missingSource (p : AbsPath)
  | symlinkFail (src dst : AbsPath)
  | copyFail (src dst : AbsPath)
deriving DecidableEq

/-- The entry selection both passes share (src/util.rs 15-32, 65-82,
132-149): keep an entry when it matches the name filter (if any), has a
non-empty file set, and has a `target_dir`. -/
def entryFilter (nameFilter : Option String) (cfg : ConfinuumConfig) :
    List ConfigEntry :=
  cfg.entries.filterMap fun p =>
    match nameFilter with
    | some n =>
      if p.1 = n ∧ 0 < p.2.files.length ∧ p.2.target_dir.isSome then some p.2 else none
    | none =>
      if 0 < p.2.files.length ∧ p.2.target_dir.isSome then some p.2 else none

/-- `std::os::unix::fs::symlink(&source_path, &target_path)`: fails when an
object (even a dangling symlink) already occupies the target, or when the
OS oracle `sOk` refuses; otherwise records the link. -/
def mkLink (sOk : AbsPath → Bool) (src dst : AbsPath) (st : DState) :
    Option DeployErr × DState :=
  if (fsLookup st.fs dst).isSome ∨ ¬ sOk dst then
    (some (DeployErr.symlinkFail src dst), st)
  else
    (none, ⟨fsSet st.fs dst (FsObj.symlink src), st.ops ++ [FsOp.mkSymlink src dst]⟩)

/-- One file of the deploy pass (src/util.rs 35-61): error when the storage
copy is missing; no-op when the deployed path is already a symlink to the
storage path; otherwise remove whatever occupies the deployed path and
create the symlink. -/
def deployFile (cd : AbsPath) (sOk : AbsPath → Bool) (ename : String)
    (td : AbsPath) (st : DState) (f : AbsPath) : Option DeployErr × DState :=
  let targetPath := td ++ f
  let sourcePath := (cd ++ [ename]) ++ f
  if ¬ fsPathExists st.fs sourcePath then
    (some (DeployErr.missingSource sourcePath), st)
  else
    if fsPathExists st.fs targetPath then
      if (match fsLookup st.fs targetPath with
          | some (FsObj.symlink t) => t == sourcePath
          | _ => false) then
        (none, st)
      else
        mkLink sOk sourcePath targetPath
          ⟨fsErase st.fs targetPath, st.ops ++ [FsOp.removeFile targetPath]⟩
    else
      mkLink sOk sourcePath targetPath st

/-- `entry.files.iter().try_for_each(...)` of the deploy pass: stop at the
first error, keeping the mutations already made. -/
def deployFilesGo (cd : AbsPath) (sOk : AbsPath → Bool) (ename : String)
    (td : AbsPath) : List AbsPath → DState → Option DeployErr × DState
  | [], st => (none, st)
  | f :: rest, st =>
    match deployFile cd sOk ename td st f with
    | (some err, st') => (some err, st')
    | (none, st') => deployFilesGo cd sOk ename td rest st'

/-- The deploy pass over the selected entries. -/
def deployEntriesGo (cd : AbsPath) (sOk : AbsPath → Bool) :
    List ConfigEntry → DState → Option DeployErr × DState
  | [], st => (none, st)
  | e :: rest, st =>
    match deployFilesGo cd sOk e.name (e.target_dir.getD []) e.files st with
    | (some err, st') => (some err, st')
    | (none, st') => deployEntriesGo cd sOk rest st'

/-- One file of the restore pass run after a deploy error (src/util.rs
88-113).  When the deployed path does not exist (following symlinks), copy
the storage content there; when it is a symlink whose link target equals
`*file` — the *relative* path, as written in the source — remove it and
copy; otherwise leave it alone. -/
def restoreFile (cd : AbsPath) (ename : String) (td : AbsPath) (st : DState)
    (f : AbsPath) : Option DeployErr × DState :=
  let targetPath := td ++ f
  let storagePath := (cd ++ [ename]) ++ f
  if ¬ fsPathExists st.fs targetPath then
    match fsResolve st.fs followLimit storagePath with
    | some (FsObj.file c) =>
      (none, ⟨fsSet st.fs targetPath (FsObj.file c),
        st.ops ++ [FsOp.copyFile storagePath targetPath]⟩)
    | _ => (some (DeployErr.copyFail storagePath targetPath), st)
  else
    if (match fsLookup st.fs targetPath with
        | some (FsObj.symlink t) => t == f
        | _ => false) then
      let st1 : DState := ⟨fsErase st.fs targetPath, st.ops ++ [FsOp.removeFile targetPath]⟩
      match fsResolve st1.fs followLimit storagePath with
      | some (FsObj.file c) =>
        (none, ⟨fsSet st1.fs targetPath (FsObj.file c),
          st1.ops ++ [FsOp.copyFile storagePath targetPath]⟩)
      | _ => (some (DeployErr.copyFail storagePath targetPath), st1)
    else
      (none, st)

/-- The restore pass over one entry's files (`try_for_each`, short-circuit). -/
def restoreFilesGo (cd : AbsPath) (ename : String) (td : AbsPath) :
    List AbsPath → DState → Option DeployErr × DState
  | [], st => (none, st)
  | f :: rest, st =>
    match restoreFile cd ename td st f with
    | (some err, st') => (some err, st')
    | (none, st') => restoreFilesGo cd ename td rest st'

/-- The restore pass over the selected entries. -/
def restoreEntriesGo (cd : AbsPath) :
    List ConfigEntry → DState → Option DeployErr × DState
  | [], st => (none, st)
  | e :: rest, st =>
    match restoreFilesGo cd e.name (e.target_dir.getD []) e.files st with
    | (some err, st') => (some err, st')
    | (none, st') => restoreEntriesGo cd rest st'

/-- `util::deploy` (src/util.rs 5-120).  After the name-filter check, run
the deploy pass; if it errored, run the restore pass over the same selected
entries.  A restore error propagates (the `?` on the restore
`try_for_each`), but when the restore pass succeeds the function falls
through to the final `Ok(())` (src/util.rs 119) — the original deploy error
is discarded. -/
def deploy (cd : AbsPath) (sOk : AbsPath → Bool) (cfg : ConfinuumConfig)
    (nameFilter : Option String) (fs : FS) : Except DeployErr Unit × DState :=
  match nameFilter with
  | some n =>
    if containsEntry cfg n then
      deployRun cd sOk cfg (some n) fs
    else
      (Except.error (DeployErr.noEntry n), ⟨fs, []⟩)
  | none => deployRun cd sOk cfg none fs
where
  deployRun (cd : AbsPath) (sOk : AbsPath → Bool) (cfg : ConfinuumConfig)
      (nameFilter : Option String) (fs : FS) : Except DeployErr Unit × DState :=
    let sel := entryFilter nameFilter cfg
    match deployEntriesGo cd sOk sel ⟨fs, []⟩ with
    | (none, st) => (Except.ok (), st)
    | (some _, st) =>
      match restoreEntriesGo cd sel st with
      | (some rerr, st') => (Except.error rerr, st')
      | (none, st') => (Except.ok (), st')

/-- One file of the undeploy pass (src/util.rs 162-171): remove the deployed
path only when it exists (following symlinks — a dangling symlink fails
this), is itself a symlink, and its link target equals the expected storage
path. -/
def undeployFile (cd : AbsPath) (ename : String) (td : AbsPath) (st : DState)
    (f : AbsPath) : DState :=
  let symlinkPath := td ++ f
  let expectedTarget := (cd ++ [ename]) ++ f
  if fsPathExists st.fs symlinkPath then
    match fsLookup st.fs symlinkPath with
    | some (FsObj.symlink t) =>
      if t = expectedTarget then
        ⟨fsErase st.fs symlinkPath, st.ops ++ [FsOp.removeFile symlinkPath]⟩
      else st
    | _ => st
  else st

/-- The undeploy pass over one entry's files. -/
def undeployFilesGo (cd : AbsPath) (ename : String) (td : AbsPath) :
    List AbsPath → DState → DState
  | [], st => st
  | f :: rest, st => undeployFilesGo cd ename td rest (undeployFile cd ename td st f)

/-- The undeploy pass over the selected entries. -/
def undeployEntriesGo (cd : AbsPath) : List ConfigEntry → DState → DState
  | [], st => st
  | e :: rest, st =>
    undeployEntriesGo cd rest
      (undeployFilesGo cd e.name (e.target_dir.getD []) e.files st)

/-- `util::undeploy` (src/util.rs 122-176): the name-filter check, then the
removal pass (whose per-file removals cannot fail in this model, matching
the fact that the guarded `remove_file` only runs on a path that was just
looked up). -/
def undeploy (cd : AbsPath) (cfg : ConfinuumConfig) (nameFilter : Option String)
    (fs : FS) : Except DeployErr Unit × DState :=
  match nameFilter with
  | some n =>
    if containsEntry cfg n then
      (Except.ok (), undeployEntriesGo cd (entryFilter (some n) cfg) ⟨fs, []⟩)
    else
      (Except.error (DeployErr.noEntry n), ⟨fs, []⟩)
  | none => (Except.ok (), undeployEntriesGo cd (entryFilter none cfg) ⟨fs, []⟩)

/-- Command-level errors (src/commands/*.rs, wrapped `anyhow` errors). -/
inductive CmdErr where
  | configMissing
  | remoteChanges
  | noEntry (n : String)
  | entryExists (n : String)
  | ingestFailed (e : IngestErr)
  | deployFailed (e : DeployErr)
  | undeployFailed (e : DeployErr)
  | pushRejected
  | orphanedFile (p : AbsPath)
  | fileMissing (p : AbsPath)
  | fileNotInEntry (p : AbsPath)
  | stripFailed (p : AbsPath)
  | removeFailed (p : AbsPath)
  | copyFailed (src dst : AbsPath)
  | noTargetDir (n : String)
deriving DecidableEq

/-- The loop of `git::diff_entries` (src/git.rs 460-496): partition changed
paths by first component.  A single-component path is root-level: it sets
the config-updated flag when it is `config.toml` and is otherwise skipped.
A longer path whose first component is a known entry name is recorded under
that entry; otherwise the loop fails (`OrphanedFile`). -/
def diffEntriesGo (cfg : ConfinuumConfig) :
    List AbsPath → List (String × List AbsPath) → Bool →
    Except CmdErr (List (String × List AbsPath) × Bool)
  | [], acc, configUpdated => Except.ok (acc, configUpdated)
  | f :: rest, acc, configUpdated =>
    if f.length = 1 then
      if f.headD "" = "config.toml" then diffEntriesGo cfg rest acc true
      else diffEntriesGo cfg rest acc configUpdated
    else
      if containsEntry cfg (f.headD "") then
        match acc.lookup (f.headD "") with
        | some fls =>
          diffEntriesGo cfg rest
            (acc.map (fun p => if p.1 = f.headD "" then (f.headD "", fls ++ [f]) else p))
            configUpdated
        | none => diffEntriesGo cfg rest (acc ++ [(f.headD "", [f])]) configUpdated
      else
        Except.error (CmdErr.orphanedFile f)

/-- `git::diff_entries` (src/git.rs 460-496).  The source reloads the config
from disk; here the loaded config is a parameter supplied by the caller from
the same on-disk state. -/
def diff_entries (cfg : ConfinuumConfig) (files : List AbsPath) :
    Except CmdErr (List (String × List AbsPath) × Bool) :=
  diffEntriesGo cfg files [] false

/-- What the working tree has checked out: the tree of a commit, or the
conflicted merge index written by `checkout_index`. -/
inductive CheckoutState where
  | commit (id : Nat)
  | conflictedIndex
deriving DecidableEq

/-- The `git2::MergeAnalysis` classification, as the source's if-chain reads
it (src/commands/update.rs 65-140). -/
inductive MergeAnalysisKind where
  | upToDate
  | unborn
  | noneAnalysis
  | fastForward
  | normal
  | other
deriving DecidableEq

/-- The mutable state a command touches: the on-disk config file, the
filesystem (storage plus deploy targets), and the git repository state.
`deployRuns` counts invocations of `util::deploy`, so that theorems can
state whether a path re-invoked deploy. -/
structure World where
  cfgFile : Option ConfinuumConfig
  fs : FS
  head : Nat
  commits : List Nat
  remoteMain : Nat
  fetchHead : Option Nat
  checkedOut : CheckoutState
  deployRuns : Nat
deriving DecidableEq

/-- Outcomes of the external git/network collaborators for one command run:
the fetched remote commit, its merge-analysis against local HEAD, whether
`merge_trees` would report conflicts, whether a push would succeed, the
changed paths of the old-HEAD/fetch-HEAD tree diff, and the id any newly
created commit would get. -/
structure GitEnv where
  fetchedCommit : Nat
  analysis : MergeAnalysisKind
  mergeConflicts : Bool
  pushOk : Bool
  diffPaths : List AbsPath
  newCommitId : Nat
deriving DecidableEq

/-- `remote.fetch(&["main"], ...)`: record FETCH_HEAD and make the fetched
commit present in the object database. -/
def fetchRemote (env : GitEnv) (w : World) : World :=
  { w with
    fetchHead := some env.fetchedCommit
    commits := if env.fetchedCommit ∈ w.commits then w.commits
               else env.fetchedCommit :: w.commits }

/-- `ConfinuumConfig::load()`: fail when the file is absent, otherwise set
entry names from their keys. -/
def loadCfg (w : World) : Except CmdErr ConfinuumConfig :=
  match w.cfgFile with
  | none => Except.error CmdErr.configMissing
  | some cfg => Except.ok (loadSetNames cfg)

/-- `index.add_all + write_tree + repo.commit(Some("HEAD"), ...)`: a new
commit on HEAD whose id the environment supplies. -/
def commitAll (env : GitEnv) (w : World) : World :=
  { w with
    commits := env.newCommitId :: w.commits
    head := env.newCommitId
    checkedOut := CheckoutState.commit env.newCommitId }

/-- A command's call of `util::deploy`, counting the invocation. -/
def runDeploy (cd : AbsPath) (sOk : AbsPath → Bool) (cfg : ConfinuumConfig)
    (nameFilter : Option String) (w : World) : Except CmdErr Unit × World :=
  let r := deploy cd sOk cfg nameFilter w.fs
  let w' := { w with fs := r.2.fs, deployRuns := w.deployRuns + 1 }
  match r.1 with
  | Except.ok _ => (Except.ok (), w')
  | Except.error e => (Except.error (CmdErr.deployFailed e), w')

/-- A command's call of `util::undeploy`. -/
def runUndeploy (cd : AbsPath) (cfg : ConfinuumConfig)
    (nameFilter : Option String) (w : World) : Except CmdErr Unit × World :=
  let r := undeploy cd cfg nameFilter w.fs
  let w' := { w with fs := r.2.fs }
  match r.1 with
  | Except.ok _ => (Except.ok (), w')
  | Except.error e => (Except.error (CmdErr.undeployFailed e), w')

/-- `commands::add::add` (src/commands/add.rs 12-113): fetch, fail unless
the merge analysis is up-to-date, load the config, require the entry,
ingest the files, save the config, commit, deploy the entry, and push when
asked. -/
def addCmd (cd : AbsPath) (sOk : AbsPath → Bool) (env : GitEnv) (name : String)
    (files : List AbsPath) (push : Bool) (w : World) : Except CmdErr Unit × World :=
  let w := fetchRemote env w
  if env.analysis = MergeAnalysisKind.upToDate then
    match loadCfg w with
    | Except.error e => (Except.error e, w)
    | Except.ok cfg =>
      if ¬ containsEntry cfg name then (Except.error (CmdErr.noEntry name), w)
      else
        match getEntry cfg name with
        | none => (Except.error (CmdErr.noEntry name), w)
        | some entry =>
          match add_files_recursive cd w.fs entry files none with
          | Except.error e => (Except.error (CmdErr.ingestFailed e), w)
          | Except.ok (entry', fs', _newFiles) =>
            let cfg' := setEntry cfg name entry'
            let w := { w with fs := fs', cfgFile := some cfg' }
            let w := commitAll env w
            match runDeploy cd sOk cfg' (some name) w with
            | (Except.error e, w') => (Except.error e, w')
            | (Except.ok _, w') =>
              if push then
                if env.pushOk then (Except.ok (), { w' with remoteMain := w'.head })
                else (Except.error CmdErr.pushRejected, w')
              else (Except.ok (), w')
  else
    (Except.error CmdErr.remoteChanges, w)

/-- `commands::new::new` (src/commands/new.rs 12-135): fetch, fail unless
up-to-date, load the config, require the entry to be new, insert it, ingest
the optional initial files, save, commit, and push when asked (no deploy in
the source). -/
def newCmd (cd : AbsPath) (env : GitEnv) (name : String)
    (files : Option (List AbsPath)) (push : Bool) (w : World) :
    Except CmdErr Unit × World :=
  let w := fetchRemote env w
  if env.analysis = MergeAnalysisKind.upToDate then
    match loadCfg w with
    | Except.error e => (Except.error e, w)
    | Except.ok cfg =>
      if containsEntry cfg name then (Except.error (CmdErr.entryExists name), w)
      else
        let entry : ConfigEntry := ⟨name, none, []⟩
        let step :=
          match files with
          | none => Except.ok (entry, w.fs, ([] : List AbsPath))
          | some fls => add_files_recursive cd w.fs entry fls none
        match step with
        | Except.error e => (Except.error (CmdErr.ingestFailed e), w)
        | Except.ok (entry', fs', _newFiles) =>
          let cfg' := insertEntry cfg name entry'
          let w := { w with fs := fs', cfgFile := some cfg' }
          let w := commitAll env w
          if push then
            if env.pushOk then (Except.ok (), { w with remoteMain := w.head })
            else (Except.error CmdErr.pushRejected, w)
          else (Except.ok (), w)
  else
    (Except.error CmdErr.remoteChanges, w)

/-- The `no_replace_files` branch of the delete body (src/commands/delete.rs
87-97): for each tracked file, require a `target_dir` and remove the
deployed path (`remove_file` fails when nothing is there). -/
def deleteRemoveLinks (td : Option AbsPath) (name : String) :
    List AbsPath → FS → Option CmdErr × FS
  | [], fs => (none, fs)
  | f :: rest, fs =>
    match td with
    | none => (some (CmdErr.noTargetDir name), fs)
    | some tdp =>
      let targetPath := tdp ++ f
      if (fsLookup fs targetPath).isSome then
        deleteRemoveLinks td name rest (fsErase fs targetPath)
      else (some (CmdErr.removeFailed targetPath), fs)

/-- The restore branch of the delete body (src/commands/delete.rs 98-119):
for each tracked file, remove the deployed path if it exists, then copy the
storage content back to it. -/
def deleteRestoreFiles (cd : AbsPath) (ename : String) (td : Option AbsPath) :
    List AbsPath → FS → Option CmdErr × FS
  | [], fs => (none, fs)
  | f :: rest, fs =>
    match td with
    | none => (some (CmdErr.noTargetDir ename), fs)
    | some tdp =>
      let targetPath := tdp ++ f
      let repoPath := (cd ++ [ename]) ++ f
      let fs1 := if fsPathExists fs targetPath then fsErase fs targetPath else fs
      match fsResolve fs1 followLimit repoPath with
      | some (FsObj.file c) =>
        deleteRestoreFiles cd ename td rest (fsSet fs1 targetPath (FsObj.file c))
      | _ => (some (CmdErr.copyFailed repoPath targetPath), fs1)

/-- `commands::delete::delete` (src/commands/delete.rs 11-197): load the
config, require the entry, fetch, fail unless up-to-date, ask for
confirmation, delete or restore the deployed files, delete the entry's
storage folder, drop the entry, save, commit, and push when asked. -/
def deleteCmd (env : GitEnv) (cd : AbsPath) (name : String) (noConfirm noReplace push : Bool)
    (userConfirms : Bool) (w : World) : Except CmdErr Unit × World :=
  match loadCfg w with
  | Except.error e => (Except.error e, w)
  | Except.ok cfg =>
    if ¬ containsEntry cfg name then (Except.error (CmdErr.noEntry name), w)
    else
      let w := fetchRemote env w
      if ¬ env.analysis = MergeAnalysisKind.upToDate then
        (Except.error CmdErr.remoteChanges, w)
      else
        if ¬ (noConfirm || userConfirms) then (Except.ok (), w)
        else
          match getEntry cfg name with
          | none => (Except.error (CmdErr.noEntry name), w)
          | some entry =>
            let body :=
              if noReplace then deleteRemoveLinks entry.target_dir name entry.files w.fs
              else deleteRestoreFiles cd name entry.target_dir entry.files w.fs
            match body with
            | (some e, fs') => (Except.error e, { w with fs := fs' })
            | (none, fs') =>
              let fs'' := fs'.filter (fun p => ¬ (cd ++ [name]).isPrefixOf p.1)
              let cfg' := removeEntry cfg name
              let w := { w with fs := fs'', cfgFile := some cfg' }
              let w := commitAll env w
              if push then
                if env.pushOk then (Except.ok (), { w with remoteMain := w.head })
                else (Except.error CmdErr.pushRejected, w)
              else (Except.ok (), w)

/-- Membership check of the remove command (src/commands/remove.rs 52-65):
every canonicalized candidate, stripped of the entry's storage prefix, must
already be tracked by the entry. -/
def removeCheckFiles (cd : AbsPath) (name : String) (entry : ConfigEntry) :
    List AbsPath → Option CmdErr
  | [] => none
  | f :: rest =>
    match dropBase (cd ++ [name]) f with
    | none => some (CmdErr.stripFailed f)
    | some rel =>
      if rel ∈ entry.files then removeCheckFiles cd name entry rest
      else some (CmdErr.fileNotInEntry rel)

/-- The read-only checks the remove command performs before it contacts the
remote (src/commands/remove.rs 23-65): the entry exists, every candidate
canonicalizes and exists, and every candidate belongs to the entry.
Returns the entry and the canonicalized candidates. -/
def removePhase1 (cd : AbsPath) (cfg : ConfinuumConfig) (fs : FS)
    (name : String) (files : List AbsPath) :
    Except CmdErr (ConfigEntry × List AbsPath) :=
  if ¬ containsEntry cfg name then Except.error (CmdErr.noEntry name)
  else
    match files.mapM (fun f =>
        match canonicalizeModel fs f with
        | some c => Except.ok c
        | none => Except.error (CmdErr.fileMissing f)) with
    | Except.error e => Except.error e
    | Except.ok canon =>
      match canon.find? (fun f => ¬ fsPathExists fs f) with
      | some f => Except.error (CmdErr.fileMissing f)
      | none =>
        match getEntry cfg name with
        | none => Except.error (CmdErr.noEntry name)
        | some entry =>
          match removeCheckFiles cd name entry canon with
          | some e => Except.error e
          | none => Except.ok (entry, canon)

/-- The mutation loop of the remove command (src/commands/remove.rs
131-156): for each canonicalized candidate, drop its relative path from the
entry, copy the storage content back to the deployed location unless
`no_replace_files`, and delete the storage file.  The `target_dir` unwrap
panic of the source is modelled as an error. -/
def removeLoop (cd : AbsPath) (name : String) (noReplace : Bool)
    (td : Option AbsPath) : List AbsPath → ConfigEntry → FS →
    Option CmdErr × ConfigEntry × FS
  | [], e, fs => (none, e, fs)
  | f :: rest, e, fs =>
    match dropBase (cd ++ [name]) f with
    | none => (some (CmdErr.stripFailed f), e, fs)
    | some rel =>
      let e := { e with files := e.files.filter (fun x => ¬ x = rel) }
      match td with
      | none => (some (CmdErr.noTargetDir name), e, fs)
      | some tdp =>
        let sourcePath := (cd ++ [name]) ++ rel
        let targetPath := tdp ++ rel
        if noReplace then
          if (fsLookup fs sourcePath).isSome then
            removeLoop cd name noReplace td rest e (fsErase fs sourcePath)
          else (some (CmdErr.removeFailed sourcePath), e, fs)
        else
          match fsResolve fs followLimit sourcePath with
          | some (FsObj.file c) =>
            let fs := fsSet fs targetPath (FsObj.file c)
            if (fsLookup fs sourcePath).isSome then
              removeLoop cd name noReplace td rest e (fsErase fs sourcePath)
            else (some (CmdErr.removeFailed sourcePath), e, fs)
          | _ => (some (CmdErr.copyFailed sourcePath targetPath), e, fs)

/-- `commands::remove::remove` (src/commands/remove.rs 15-224): the
read-only checks, then fetch, fail unless up-to-date, confirm, undeploy the
entry, run the mutation loop, save, commit, push when asked, and deploy the
entry again. -/
def removeCmd (cd : AbsPath) (sOk : AbsPath → Bool) (env : GitEnv) (name : String)
    (files : List AbsPath) (noConfirm noReplace push userConfirms : Bool)
    (w : World) : Except CmdErr Unit × World :=
  match loadCfg w with
  | Except.error e => (Except.error e, w)
  | Except.ok cfg =>
    match removePhase1 cd cfg w.fs name files with
    | Except.error e => (Except.error e, w)
    | Except.ok (entry, canon) =>
      let w := fetchRemote env w
      if ¬ env.analysis = MergeAnalysisKind.upToDate then
        (Except.error CmdErr.remoteChanges, w)
      else
        if ¬ (noConfirm || userConfirms) then (Except.ok (), w)
        else
          match runUndeploy cd cfg (some name) w with
          | (Except.error e, w') => (Except.error e, w')
          | (Except.ok _, w') =>
            match removeLoop cd name noReplace entry.target_dir canon entry w'.fs with
            | (some e, _, fs') => (Except.error e, { w' with fs := fs' })
            | (none, entry', fs') =>
              let cfg' := setEntry cfg name entry'
              let w' := { w' with fs := fs', cfgFile := some cfg' }
              let w' := commitAll env w'
              let afterPush :=
                if push then
                  if env.pushOk then
                    Except.ok ({ w' with remoteMain := w'.head } : World)
                  else Except.error CmdErr.pushRejected
                else Except.ok w'
              match afterPush with
              | Except.error e => (Except.error e, w')
              | Except.ok w'' =>
                match runDeploy cd sOk cfg' (some name) w'' with
                | (Except.error e, w3) => (Except.error e, w3)
                | (Except.ok _, w3) => (Except.ok (), w3)

/-- `commands::update::update` (src/commands/update.rs 11-145): undeploy
everything, fetch, compute the head/fetch tree diff and partition it with
`diff_entries` (an orphaned file aborts here), then branch on the merge
analysis: up-to-date/unborn/none do nothing; fast-forward advances the
branch and force-checks-out; normal merges the trees — on conflicts it
checks out the conflicted index and returns `Ok` immediately (skipping the
final deploy), otherwise it creates the merge commit, checks out HEAD and
pushes; an unrecognized analysis also returns immediately.  All paths that
fall through re-invoke `util::deploy` at the end. -/
def updateCmd (cd : AbsPath) (sOk : AbsPath → Bool) (env : GitEnv) (w : World) :
    Except CmdErr Unit × World :=
  match loadCfg w with
  | Except.error e => (Except.error e, w)
  | Except.ok cfg =>
    match runUndeploy cd cfg none w with
    | (Except.error e, w) => (Except.error e, w)
    | (Except.ok _, w) =>
      let w := fetchRemote env w
      match diff_entries cfg env.diffPaths with
      | Except.error e => (Except.error e, w)
      | Except.ok _diffInfo =>
        match env.analysis with
        | MergeAnalysisKind.upToDate => runDeploy cd sOk cfg none w
        | MergeAnalysisKind.unborn => runDeploy cd sOk cfg none w
        | MergeAnalysisKind.noneAnalysis => runDeploy cd sOk cfg none w
        | MergeAnalysisKind.fastForward =>
          let w := { w with
            head := env.fetchedCommit
            checkedOut := CheckoutState.commit env.fetchedCommit }
          runDeploy cd sOk cfg none w
        | MergeAnalysisKind.normal =>
          if env.mergeConflicts then
            (Except.ok (), { w with checkedOut := CheckoutState.conflictedIndex })
          else
            let w := commitAll env w
            if env.pushOk then
              runDeploy cd sOk cfg none { w with remoteMain := env.newCommitId }
            else (Except.error CmdErr.pushRejected, w)
        | MergeAnalysisKind.other => (Except.ok (), w)

/-- `Except.ok`-ness as a Bool, for stating that an operation failed. -/
def isOkE {ε α : Type} : Except ε α → Bool
  | Except.ok _ => true
  | Except.error _ => false

/-- The exact per-file condition under which `undeploy` removes a deployed
path: it exists (following symlinks), is a symlink, and its link target is
the expected storage path. -/
def removableB (cd : AbsPath) (fs : FS) (ename : String) (td : AbsPath)
    (f : AbsPath) : Bool :=
  fsPathExists fs (td ++ f) &&
    (match fsLookup fs (td ++ f) with
     | some (FsObj.symlink t) => t == (cd ++ [ename]) ++ f
     | _ => false)

/-- A sample config directory (`~/.config/confinuum`). -/
def sampleCd : AbsPath := ["home", "u", ".config", "confinuum"]

/-- A sample deployment base (`~/.config/nvim`). -/
def nvimTd : AbsPath := ["home", "u", ".config", "nvim"]

/-- A sample entry tracking one file. -/
def nvimEntry : ConfigEntry := ⟨"nvim", some nvimTd, [["init.lua"]]⟩

/-- A sample config holding the `nvim` entry. -/
def nvimCfg : ConfinuumConfig := ⟨[("nvim", nvimEntry)]⟩

/-- A filesystem in the fully deployed state: the storage copy exists and
the deployed path is a symlink to it. -/
def deployedFs : FS :=
  [(nvimTd ++ ["init.lua"], FsObj.symlink (sampleCd ++ ["nvim", "init.lua"])),
   (sampleCd ++ ["nvim", "init.lua"], FsObj.file 1)]

/-- A filesystem where the deployed path is a plain file, not a symlink. -/
def plainFileFs : FS :=
  [(nvimTd ++ ["init.lua"], FsObj.file 7),
   (sampleCd ++ ["nvim", "init.lua"], FsObj.file 1)]

/-- A filesystem where the deployed path is a symlink to the expected
storage path, but the storage copy is gone: a dangling symlink. -/
def danglingFs : FS :=
  [(nvimTd ++ ["init.lua"], FsObj.symlink (sampleCd ++ ["nvim", "init.lua"]))]

/-- A world whose config file holds the sample entry and whose filesystem is
fully deployed. -/
def baseW : World :=
  ⟨some nvimCfg, deployedFs, 1, [1], 1, none, CheckoutState.commit 1, 0⟩

/-- A remote interaction where the fetched commit diverges (merge analysis
`normal`) and the three-way merge would conflict. -/
def conflictEnv : GitEnv := ⟨2, MergeAnalysisKind.normal, true, true, [], 3⟩

/-- A remote interaction where the local branch is already up to date. -/
def upToDateEnv : GitEnv := ⟨1, MergeAnalysisKind.upToDate, false, true, [], 3⟩

/-- Ingestion scenario of the base-path-growth claim: the config directory. -/
def c1Cd : AbsPath := ["cfg"]

/-- The spec example's first file, `/home/u/proj/a`. -/
def c1P1 : AbsPath := ["home", "u", "proj", "a"]

/-- A sibling file `/home/u/proj/b`, so that a first ingestion with a
proper (directory) common base can be exercised. -/
def c1P1b : AbsPath := ["home", "u", "proj", "b"]

/-- The spec example's second file, `/home/u/proj/sub/b`. -/
def c1P2 : AbsPath := ["home", "u", "proj", "sub", "b"]

/-- The common base directory `/home/u/proj` of the sibling pair. -/
def c1Base : AbsPath := ["home", "u", "proj"]

/-- Filesystem holding all three candidate files. -/
def c1Fs : FS :=
  [(c1P1, FsObj.file 1), (c1P1b, FsObj.file 2), (c1P2, FsObj.file 3)]

/-- The entry before any ingestion. -/
def c1E0 : ConfigEntry := ⟨"dots", none, []⟩

/-- First ingestion: add the siblings `/home/u/proj/{a,b}` to the fresh
entry, which succeeds with base `/home/u/proj`. -/
def c1Step1 : Except IngestErr (ConfigEntry × FS × List AbsPath) :=
  add_files_recursive c1Cd c1Fs c1E0 [c1P1, c1P1b] none

/-- The entry after the first ingestion. -/
def c1E1 : ConfigEntry :=
  match c1Step1 with
  | Except.ok (e, _, _) => e
  | Except.error _ => c1E0

/-- The filesystem after the first ingestion. -/
def c1Fs1 : FS :=
  match c1Step1 with
  | Except.ok (_, f, _) => f
  | Except.error _ => c1Fs

/-- Second ingestion: add `/home/u/proj/sub/b` to the same entry. -/
def c1Step2 : Except IngestErr (ConfigEntry × FS × List AbsPath) :=
  add_files_recursive c1Cd c1Fs1 c1E1 [c1P2] none

/-- The spec example's literal first step: ingest the lone file
`/home/u/proj/a` into the fresh entry. -/
def c1SingleStep : Except IngestErr (ConfigEntry × FS × List AbsPath) :=
  add_files_recursive c1Cd c1Fs c1E0 [c1P1] none

/-- Deploy-rollback scenario: one entry with two files, storage populated,
nothing deployed yet. -/
def c4Cfg : ConfinuumConfig := ⟨[("e", ⟨"e", some ["t"], [["a"], ["b"]]⟩)]⟩

/-- Storage for the deploy-rollback scenario. -/
def c4Fs : FS :=
  [(["cfg", "e", "a"], FsObj.file 1), (["cfg", "e", "b"], FsObj.file 2)]

/-- OS oracle for the deploy-rollback scenario: creating the symlink at
`/t/b` fails, every other symlink creation succeeds. -/
def c4SOk : AbsPath → Bool := fun p => ¬ p = ["t", "b"]

/-- The state a failed divergence guard must leave untouched: the on-disk
config file, the filesystem, and the local branch state (fetching may
update FETCH_HEAD and add remote objects, which touches neither). -/
def preservedW (w w' : World) : Prop :=
  w'.cfgFile = w.cfgFile ∧ w'.fs = w.fs ∧ w'.head = w.head ∧
  w'.remoteMain = w.remoteMain ∧ w'.checkedOut = w.checkedOut

theorem fsErase_cons_self {hd : AbsPath × FsObj} {tl : FS} {q : AbsPath}
    (hq : hd.1 = q) : fsErase (hd :: tl) q = fsErase tl q := by
  simp [fsErase, List.filter_cons, hq]

theorem fsErase_cons_ne {hd : AbsPath × FsObj} {tl : FS} {q : AbsPath}
    (hq : ¬ hd.1 = q) : fsErase (hd :: tl) q = hd :: fsErase tl q := by
  simp [fsErase, List.filter_cons, hq]

theorem fsLookup_erase (fs : FS) (q p : AbsPath) :
    fsLookup (fsErase fs q) p = if q = p then none else fsLookup fs p := by
  induction fs with
  | nil => simp [fsErase, fsLookup]
  | cons hd tl ih =>
    by_cases hq : hd.1 = q
    · rw [fsErase_cons_self hq, ih]
      by_cases hqp : q = p
      · simp [hqp]
      · have hdp : ¬ hd.1 = p := by rw [hq]; exact hqp
        simp [fsLookup, hdp, hqp]
    · rw [fsErase_cons_ne hq]
      by_cases hp : hd.1 = p
      · have hqp : ¬ q = p := fun h => hq (by rw [h]; exact hp)
        simp [fsLookup, hp, hqp]
      · simp only [fsLookup, if_neg hp]
        exact ih

theorem fsLookup_erase_ne {fs : FS} {q p : AbsPath} (h : ¬ q = p) :
    fsLookup (fsErase fs q) p = fsLookup fs p := by
  simp [fsLookup_erase, h]

theorem fsLookup_erase_some {fs : FS} {q p : AbsPath} {o : FsObj}
    (h : fsLookup (fsErase fs q) p = some o) : fsLookup fs p = some o := by
  by_cases hqp : q = p
  · rw [fsLookup_erase, if_pos hqp] at h; exact absurd h (by simp)
  · rwa [fsLookup_erase_ne hqp] at h

theorem fsResolve_file {fs : FS} {p : AbsPath} {c : Nat} (fuel : Nat)
    (h : fsLookup fs p = some (FsObj.file c)) :
    fsResolve fs (fuel + 1) p = some (FsObj.file c) := by
  simp [fsResolve, h]

theorem fsPathExists_file {fs : FS} {p : AbsPath} {c : Nat}
    (h : fsLookup fs p = some (FsObj.file c)) : fsPathExists fs p = true := by
  have h40 : followLimit = 39 + 1 := rfl
  simp [fsPathExists, h40, fsResolve_file 39 h]

theorem fsPathExists_symlink_file {fs : FS} {p t : AbsPath} {c : Nat}
    (h1 : fsLookup fs p = some (FsObj.symlink t))
    (h2 : fsLookup fs t = some (FsObj.file c)) : fsPathExists fs p = true := by
  have h40 : followLimit = 38 + 1 + 1 := rfl
  have : fsResolve fs (38 + 1 + 1) p = some (FsObj.file c) := by
    simp [fsResolve, h1]
    exact fsResolve_file 38 h2
  simp [fsPathExists, h40, this]

theorem fsResolve_erase_isSome {fs : FS} {q p : AbsPath} :
    ∀ fuel, (fsResolve (fsErase fs q) fuel p).isSome = true →
      (fsResolve fs fuel p).isSome = true := by
  intro fuel
  induction fuel generalizing p with
  | zero => intro h; simp [fsResolve] at h
  | succ n ih =>
    intro h
    rcases ho : fsLookup (fsErase fs q) p with _ | o
    · rw [fsResolve] at h
      simp [ho] at h
    · have hfs : fsLookup fs p = some o := fsLookup_erase_some ho
      cases o with
      | symlink t =>
        rw [fsResolve] at h
        simp only [ho] at h
        rw [fsResolve]
        simp only [hfs]
        exact ih h
      | file c =>
        rw [fsResolve]; simp [hfs]
      | dir ch =>
        rw [fsResolve]; simp [hfs]

theorem fsPathExists_erase_false {fs : FS} {q p : AbsPath}
    (h : fsPathExists fs p = false) : fsPathExists (fsErase fs q) p = false := by
  by_contra hc
  have h1 : (fsResolve (fsErase fs q) followLimit p).isSome = true := by
    rw [fsPathExists] at hc
    exact Bool.of_not_eq_false hc
  have h2 := fsResolve_erase_isSome followLimit h1
  rw [fsPathExists] at h
  rw [h] at h2
  exact Bool.false_ne_true h2

theorem deployFile_noop {cd : AbsPath} {sOk : AbsPath → Bool} {ename : String}
    {td : AbsPath} {st : DState} {f : AbsPath} {c : Nat}
    (hlink : fsLookup st.fs (td ++ f) = some (FsObj.symlink ((cd ++ [ename]) ++ f)))
    (hstore : fsLookup st.fs ((cd ++ [ename]) ++ f) = some (FsObj.file c)) :
    deployFile cd sOk ename td st f = (none, st) := by
  have hsrc : fsPathExists st.fs ((cd ++ [ename]) ++ f) = true := fsPathExists_file hstore
  have htgt : fsPathExists st.fs (td ++ f) = true :=
    fsPathExists_symlink_file hlink hstore
  have hsrc' : fsPathExists st.fs (cd ++ ename :: f) = true := by simpa using hsrc
  have hlink' : fsLookup st.fs (td ++ f) = some (FsObj.symlink (cd ++ ename :: f)) := by
    simpa using hlink
  simp [deployFile, hsrc', htgt, hlink']

theorem deployFilesGo_noop {cd : AbsPath} {sOk : AbsPath → Bool} {ename : String}
    {td : AbsPath} {st : DState} {files : List AbsPath}
    (h : ∀ f ∈ files,
      fsLookup st.fs (td ++ f) = some (FsObj.symlink ((cd ++ [ename]) ++ f)) ∧
      ∃ c, fsLookup st.fs ((cd ++ [ename]) ++ f) = some (FsObj.file c)) :
    deployFilesGo cd sOk ename td files st = (none, st) := by
  induction files with
  | nil => rfl
  | cons f rest ih =>
    obtain ⟨hlink, c, hstore⟩ := h f (by simp)
    rw [deployFilesGo, deployFile_noop hlink hstore]
    exact ih (fun g hg => h g (by simp [hg]))

theorem deployEntriesGo_noop {cd : AbsPath} {sOk : AbsPath → Bool}
    {entries : List ConfigEntry} {st : DState}
    (h : ∀ e ∈ entries, ∀ f ∈ e.files,
      fsLookup st.fs ((e.target_dir.getD []) ++ f) =
        some (FsObj.symlink ((cd ++ [e.name]) ++ f)) ∧
      ∃ c, fsLookup st.fs ((cd ++ [e.name]) ++ f) = some (FsObj.file c)) :
    deployEntriesGo cd sOk entries st = (none, st) := by
  induction entries with
  | nil => rfl
  | cons e rest ih =>
    rw [deployEntriesGo, deployFilesGo_noop (h e (by simp))]
    exact ih (fun e' he' => h e' (by simp [he']))

theorem undeployFile_noop {cd : AbsPath} {ename : String} {td : AbsPath}
    {st : DState} {f : AbsPath}
    (h : removableB cd st.fs ename td f = false) :
    undeployFile cd ename td st f = st := by
  rw [undeployFile]
  rcases hE : fsPathExists st.fs (td ++ f) with _ | _
  · simp [hE]
  · simp only [hE]
    rcases ho : fsLookup st.fs (td ++ f) with _ | o
    · simp
    · cases o with
      | symlink t =>
        rw [removableB, hE] at h
        simp only [ho, Bool.true_and] at h
        have hne : ¬ t = (cd ++ [ename]) ++ f := by
          intro he
          rw [he] at h
          simp at h
        have hne' : ¬ t = cd ++ ename :: f := by simpa using hne
        simp [hne']
      | file c => simp
      | dir ch => simp

theorem undeployFilesGo_noop {cd : AbsPath} {ename : String} {td : AbsPath}
    {st : DState} {files : List AbsPath}
    (h : ∀ f ∈ files, removableB cd st.fs ename td f = false) :
    undeployFilesGo cd ename td files st = st := by
  induction files with
  | nil => rfl
  | cons f rest ih =>
    rw [undeployFilesGo, undeployFile_noop (h f (by simp))]
    exact ih (fun g hg => h g (by simp [hg]))

theorem undeployEntriesGo_noop {cd : AbsPath} {entries : List ConfigEntry}
    {st : DState}
    (h : ∀ e ∈ entries, ∀ f ∈ e.files,
      removableB cd st.fs e.name (e.target_dir.getD []) f = false) :
    undeployEntriesGo cd entries st = st := by
  induction entries with
  | nil => rfl
  | cons e rest ih =>
    rw [undeployEntriesGo, undeployFilesGo_noop (h e (by simp))]
    exact ih (fun e' he' => h e' (by simp [he']))

theorem undeployFile_eq (cd : AbsPath) (ename : String) (td : AbsPath)
    (st : DState) (f : AbsPath) :
    undeployFile cd ename td st f =
      if removableB cd st.fs ename td f = true then
        ⟨fsErase st.fs (td ++ f), st.ops ++ [FsOp.removeFile (td ++ f)]⟩
      else st := by
  rw [undeployFile, removableB]
  rcases hE : fsPathExists st.fs (td ++ f) with _ | _
  · simp [hE]
  · simp only [hE, Bool.true_and, if_true]
    rcases ho : fsLookup st.fs (td ++ f) with _ | o
    · simp
    · cases o with
      | symlink t =>
        by_cases ht : t = (cd ++ [ename]) ++ f <;> simp [ht]
      | file c => simp
      | dir ch => simp

theorem removableB_true_lookup {cd : AbsPath} {fs : FS} {ename : String}
    {td : AbsPath} {f : AbsPath} (h : removableB cd fs ename td f = true) :
    fsLookup fs (td ++ f) = some (FsObj.symlink ((cd ++ [ename]) ++ f)) ∧
    fsPathExists fs (td ++ f) = true := by
  rw [removableB] at h
  rcases hE : fsPathExists fs (td ++ f) with _ | _
  · rw [hE] at h; simp at h
  · rcases ho : fsLookup fs (td ++ f) with _ | o
    · rw [ho] at h; simp at h
    · cases o with
      | symlink t =>
        rw [ho] at h
        simp only [hE, Bool.true_and] at h
        have hbe := eq_of_beq h
        exact ⟨by rw [hbe], rfl⟩
      | file c => rw [ho] at h; simp at h
      | dir ch => rw [ho] at h; simp at h

theorem undeployFile_preserves {cd : AbsPath} {ename : String} {td : AbsPath}
    {st : DState} {f : AbsPath} {p : AbsPath} {obj : FsObj}
    (hp : fsLookup st.fs p = some obj)
    (hsafe : td ++ f = p → ¬ obj = FsObj.symlink ((cd ++ [ename]) ++ f)) :
    fsLookup (undeployFile cd ename td st f).fs p = some obj := by
  rw [undeployFile_eq]
  by_cases hr : removableB cd st.fs ename td f = true
  · rw [if_pos hr]
    obtain ⟨hlink, _⟩ := removableB_true_lookup hr
    have hqp : ¬ td ++ f = p := by
      intro hqp
      rw [hqp, hp] at hlink
      exact hsafe hqp (Option.some.inj hlink)
    simpa [fsLookup_erase_ne hqp] using hp
  · rw [if_neg hr]; exact hp

theorem undeployFilesGo_preserves {cd : AbsPath} {ename : String} {td : AbsPath}
    {p : AbsPath} {obj : FsObj} :
    ∀ (files : List AbsPath) (st : DState),
      fsLookup st.fs p = some obj →
      (∀ f ∈ files, td ++ f = p → ¬ obj = FsObj.symlink ((cd ++ [ename]) ++ f)) →
      fsLookup (undeployFilesGo cd ename td files st).fs p = some obj := by
  intro files
  induction files with
  | nil => intro st hp _; exact hp
  | cons f rest ih =>
    intro st hp hsafe
    rw [undeployFilesGo]
    exact ih _ (undeployFile_preserves hp (hsafe f (by simp)))
      (fun g hg => hsafe g (by simp [hg]))

theorem undeployEntriesGo_preserves {cd : AbsPath} {p : AbsPath} {obj : FsObj} :
    ∀ (entries : List ConfigEntry) (st : DState),
      fsLookup st.fs p = some obj →
      (∀ e ∈ entries, ∀ f ∈ e.files,
        (e.target_dir.getD []) ++ f = p →
        ¬ obj = FsObj.symlink ((cd ++ [e.name]) ++ f)) →
      fsLookup (undeployEntriesGo cd entries st).fs p = some obj := by
  intro entries
  induction entries with
  | nil => intro st hp _; exact hp
  | cons e rest ih =>
    intro st hp hsafe
    rw [undeployEntriesGo]
    exact ih _ (undeployFilesGo_preserves e.files st hp (hsafe e (by simp)))
      (fun e' he' => hsafe e' (by simp [he']))

theorem undeployFile_dangling {cd : AbsPath} {ename : String} {td : AbsPath}
    {st : DState} {f : AbsPath} {p t : AbsPath}
    (hp : fsLookup st.fs p = some (FsObj.symlink t))
    (hdan : fsPathExists st.fs p = false) :
    fsLookup (undeployFile cd ename td st f).fs p = some (FsObj.symlink t) ∧
    fsPathExists (undeployFile cd ename td st f).fs p = false := by
  rw [undeployFile_eq]
  by_cases hr : removableB cd st.fs ename td f = true
  · rw [if_pos hr]
    obtain ⟨_, hex⟩ := removableB_true_lookup hr
    have hqp : ¬ td ++ f = p := by
      intro hqp
      rw [hqp, hdan] at hex
      exact Bool.false_ne_true hex
    exact ⟨by simpa [fsLookup_erase_ne hqp] using hp,
      fsPathExists_erase_false hdan⟩
  · rw [if_neg hr]; exact ⟨hp, hdan⟩

theorem undeployFilesGo_dangling {cd : AbsPath} {ename : String} {td : AbsPath}
    {p t : AbsPath} :
    ∀ (files : List AbsPath) (st : DState),
      fsLookup st.fs p = some (FsObj.symlink t) →
      fsPathExists st.fs p = false →
      fsLookup (undeployFilesGo cd ename td files st).fs p =
          some (FsObj.symlink t) ∧
      fsPathExists (undeployFilesGo cd ename td files st).fs p = false := by
  intro files
  induction files with
  | nil => intro st hp hdan; exact ⟨hp, hdan⟩
  | cons f rest ih =>
    intro st hp hdan
    rw [undeployFilesGo]
    obtain ⟨h1, h2⟩ := undeployFile_dangling (f := f) hp hdan
    exact ih _ h1 h2

theorem undeployEntriesGo_dangling {cd : AbsPath} {p t : AbsPath} :
    ∀ (entries : List ConfigEntry) (st : DState),
      fsLookup st.fs p = some (FsObj.symlink t) →
      fsPathExists st.fs p = false →
      fsLookup (undeployEntriesGo cd entries st).fs p =
          some (FsObj.symlink t) ∧
      fsPathExists (undeployEntriesGo cd entries st).fs p = false := by
  intro entries
  induction entries with
  | nil => intro st hp hdan; exact ⟨hp, hdan⟩
  | cons e rest ih =>
    intro st hp hdan
    rw [undeployEntriesGo]
    obtain ⟨h1, h2⟩ := undeployFilesGo_dangling e.files st hp hdan
    exact ih _ h1 h2

theorem listLookup_mem {α β : Type} [BEq α] [LawfulBEq α] {l : List (α × β)}
    {k : α} {v : β} (h : l.lookup k = some v) : (k, v) ∈ l := by
  induction l with
  | nil => simp [List.lookup] at h
  | cons hd tl ih =>
    obtain ⟨a, b⟩ := hd
    rw [List.lookup] at h
    rcases hbe : (k == a) with _ | _
    · rw [hbe] at h
      exact List.mem_cons_of_mem _ (ih h)
    · rw [hbe] at h
      injection h with hv
      have hk : k = a := eq_of_beq hbe
      rw [← hk, hv]
      exact List.mem_cons_self _ _

theorem diffEntriesGo_true_stays {cfg : ConfinuumConfig} :
    ∀ (files : List AbsPath) (acc : List (String × List AbsPath))
      (m : List (String × List AbsPath)) (b : Bool),
      diffEntriesGo cfg files acc true = Except.ok (m, b) → b = true := by
  intro files
  induction files with
  | nil =>
    intro acc m b h
    rw [diffEntriesGo] at h
    injection h with h'
    injection h' with h1 h2
    exact h2.symm
  | cons f rest ih =>
    intro acc m b h
    rw [diffEntriesGo] at h
    by_cases h1 : f.length = 1
    · rw [if_pos h1] at h
      by_cases h2 : f.headD "" = "config.toml"
      · rw [if_pos h2] at h; exact ih _ _ _ h
      · rw [if_neg h2] at h; exact ih _ _ _ h
    · rw [if_neg h1] at h
      by_cases h3 : containsEntry cfg (f.headD "") = true
      · rw [if_pos h3] at h
        rcases hl : (acc.lookup (f.headD "")) with _ | fls
        · rw [hl] at h; exact ih _ _ _ h
        · rw [hl] at h; exact ih _ _ _ h
      · rw [if_neg h3] at h
        exact absurd h (by simp)

theorem diffEntriesGo_config_mem {cfg : ConfinuumConfig} :
    ∀ (files : List AbsPath) (acc : List (String × List AbsPath)) (cu : Bool)
      (m : List (String × List AbsPath)) (b : Bool),
      diffEntriesGo cfg files acc cu = Except.ok (m, b) →
      ["config.toml"] ∈ files → b = true := by
  intro files
  induction files with
  | nil => intro acc cu m b _ hmem; simp at hmem
  | cons f rest ih =>
    intro acc cu m b h hmem
    rw [diffEntriesGo] at h
    rcases List.mem_cons.mp hmem with hf | hf
    · have h1 : f.length = 1 := by rw [← hf]; rfl
      have h2 : f.headD "" = "config.toml" := by rw [← hf]; rfl
      rw [if_pos h1, if_pos h2] at h
      exact diffEntriesGo_true_stays rest acc m b h
    · by_cases h1 : f.length = 1
      · rw [if_pos h1] at h
        by_cases h2 : f.headD "" = "config.toml"
        · rw [if_pos h2] at h; exact diffEntriesGo_true_stays rest acc m b h
        · rw [if_neg h2] at h; exact ih _ _ _ _ h hf
      · rw [if_neg h1] at h
        by_cases h3 : containsEntry cfg (f.headD "") = true
        · rw [if_pos h3] at h
          rcases hl : (acc.lookup (f.headD "")) with _ | fls
          · rw [hl] at h; exact ih _ _ _ _ h hf
          · rw [hl] at h; exact ih _ _ _ _ h hf
        · rw [if_neg h3] at h
          exact absurd h (by simp)

theorem diffEntriesGo_no_root {cfg : ConfinuumConfig} :
    ∀ (files : List AbsPath) (acc : List (String × List AbsPath)) (cu : Bool)
      (m : List (String × List AbsPath)) (b : Bool),
      (∀ en pl, (en, pl) ∈ acc → ∀ p ∈ pl, ¬ p.length = 1) →
      diffEntriesGo cfg files acc cu = Except.ok (m, b) →
      ∀ en pl, (en, pl) ∈ m → ∀ p ∈ pl, ¬ p.length = 1 := by
  intro files
  induction files with
  | nil =>
    intro acc cu m b hacc h
    rw [diffEntriesGo] at h
    injection h with h'
    injection h' with h1 h2
    rw [← h1]
    exact hacc
  | cons f rest ih =>
    intro acc cu m b hacc h
    rw [diffEntriesGo] at h
    by_cases h1 : f.length = 1
    · rw [if_pos h1] at h
      by_cases h2 : f.headD "" = "config.toml"
      · rw [if_pos h2] at h; exact ih _ _ _ _ hacc h
      · rw [if_neg h2] at h; exact ih _ _ _ _ hacc h
    · rw [if_neg h1] at h
      by_cases h3 : containsEntry cfg (f.headD "") = true
      · rw [if_pos h3] at h
        rcases hl : (acc.lookup (f.headD "")) with _ | fls
        · rw [hl] at h
          refine ih _ _ _ _ ?_ h
          intro en pl hmem p hp
          rcases List.mem_append.mp hmem with hin | hin
          · exact hacc en pl hin p hp
          · have : (en, pl) = (f.headD "", [f]) := by simpa using hin
            injection this with he hpl
            rw [hpl] at hp
            have : p = f := by simpa using hp
            rw [this]; exact h1
        · rw [hl] at h
          refine ih _ _ _ _ ?_ h
          intro en pl hmem p hp
          rcases List.mem_map.mp hmem with ⟨q, hq, hqe⟩
          by_cases hqk : q.1 = f.headD ""
          · rw [if_pos hqk] at hqe
            injection hqe with he hpl
            rw [← hpl] at hp
            rcases List.mem_append.mp hp with hin | hin
            · exact hacc _ _ (listLookup_mem hl) p hin
            · have : p = f := by simpa using hin
              rw [this]; exact h1
          · rw [if_neg hqk] at hqe
            rw [hqe] at hq
            exact hacc en pl hq p hp
      · rw [if_neg h3] at h
        exact absurd h (by simp)

theorem diffEntriesGo_orphan {cfg : ConfinuumConfig} {p : AbsPath} :
    ∀ (files : List AbsPath) (acc : List (String × List AbsPath)) (cu : Bool),
      p ∈ files → ¬ p.length = 1 → containsEntry cfg (p.headD "") = false →
      isOkE (diffEntriesGo cfg files acc cu) = false := by
  intro files
  induction files with
  | nil => intro acc cu hmem; simp at hmem
  | cons f rest ih =>
    intro acc cu hmem hlen hcont
    rw [diffEntriesGo]
    rcases List.mem_cons.mp hmem with hf | hf
    · rw [← hf]
      rw [if_neg hlen]
      have hfalse : ¬ containsEntry cfg (p.headD "") = true := by
        rw [hcont]; exact Bool.false_ne_true
      rw [if_neg hfalse]
      simp [isOkE]
    · by_cases h1 : f.length = 1
      · rw [if_pos h1]
        by_cases h2 : f.headD "" = "config.toml"
        · rw [if_pos h2]; exact ih _ _ hf hlen hcont
        · rw [if_neg h2]; exact ih _ _ hf hlen hcont
      · rw [if_neg h1]
        by_cases h3 : containsEntry cfg (f.headD "") = true
        · rw [if_pos h3]
          rcases hl : (acc.lookup (f.headD "")) with _ | fls
          · exact ih _ _ hf hlen hcont
          · exact ih _ _ hf hlen hcont
        · rw [if_neg h3]
          simp [isOkE]

/-- Claim C10: when deploy or undeploy is called with an entry-name filter
and no entry of that name exists, the operation returns an error naming the
missing entry and performs no filesystem change (and records no operation)
for any entry. -/
theorem c10_missing_entry_guard (cd : AbsPath) (sOk : AbsPath → Bool)
    (cfg : ConfinuumConfig) (n : String) (fs : FS)
    (h : containsEntry cfg n = false) :
    deploy cd sOk cfg (some n) fs = (Except.error (DeployErr.noEntry n), ⟨fs, []⟩) ∧
    undeploy cd cfg (some n) fs = (Except.error (DeployErr.noEntry n), ⟨fs, []⟩) := by
  have hni : ¬ containsEntry cfg n = true := by rw [h]; exact Bool.false_ne_true
  constructor
  · rw [deploy, if_neg hni]
  · rw [undeploy, if_neg hni]

theorem c10_witness :
    containsEntry nvimCfg "zsh" = false ∧
    deploy sampleCd (fun _ => true) nvimCfg (some "zsh") deployedFs =
      (Except.error (DeployErr.noEntry "zsh"), ⟨deployedFs, []⟩) ∧
    undeploy sampleCd nvimCfg (some "zsh") deployedFs =
      (Except.error (DeployErr.noEntry "zsh"), ⟨deployedFs, []⟩) := by
  have h := c10_missing_entry_guard sampleCd (fun _ => true) nvimCfg "zsh"
    deployedFs (by decide)
  exact ⟨by decide, h.1, h.2⟩

/-- Claim C4 (code bug): at a concrete input where the second symlink
creation fails, `deploy` runs its restore pass and then returns `Ok(())` —
the original symlink error is not surfaced (contradicting the source's own
comment, src/util.rs 64), and the successfully created symlink at `/t/a` is
left as a symlink rather than restored to a plain-file copy (the restore
comparison `read_link == *file` tests against the relative path,
src/util.rs 99). -/
theorem c4_deploy_swallows_error :
    (deploy ["cfg"] c4SOk c4Cfg none c4Fs).1 = Except.ok () ∧
    fsLookup (deploy ["cfg"] c4SOk c4Cfg none c4Fs).2.fs ["t", "a"] =
      some (FsObj.symlink ["cfg", "e", "a"]) ∧
    fsLookup (deploy ["cfg"] c4SOk c4Cfg none c4Fs).2.fs ["t", "b"] =
      some (FsObj.file 2) ∧
    (deploy ["cfg"] c4SOk c4Cfg none c4Fs).2.ops =
      [FsOp.mkSymlink ["cfg", "e", "a"] ["t", "a"],
       FsOp.copyFile ["cfg", "e", "b"] ["t", "b"]] := by
  exact ⟨rfl, rfl, rfl, rfl⟩

theorem ingestGo_target_mismatch (cd : AbsPath) (fs : FS) (e : ConfigEntry)
    (files canon : List AbsPath) (td b : AbsPath) (fuel : Nat)
    (htd : e.target_dir = some td)
    (hcanon : files.mapM (canonIngest fs) = Except.ok canon)
    (hbase : commonPathAll canon = some b)
    (hne : ¬ td = b) :
    ingestGo cd (fuel + 1) (IngestJob.call e files none) fs =
      Except.error (IngestErr.targetMismatch td b) := by
  simp only [ingestGo, hcanon, hbase, htd]
  simp [hne]

/-- Claim C1 (amended): when new files are ingested into an entry that
already has a `target_dir` and the common ancestor of the new candidate
paths (alone — old paths are never consulted) differs from the existing
`target_dir`, `add_files_recursive` fails with the target-mismatch error;
no base recomputation or rewriting of stored relative paths ever happens. -/
theorem c1_base_growth_rejected (cd : AbsPath) (fs : FS) (e : ConfigEntry)
    (files canon : List AbsPath) (td b : AbsPath)
    (htd : e.target_dir = some td)
    (hcanon : files.mapM (canonIngest fs) = Except.ok canon)
    (hbase : commonPathAll canon = some b)
    (hne : ¬ td = b) :
    add_files_recursive cd fs e files none =
      Except.error (IngestErr.targetMismatch td b) := by
  rw [add_files_recursive]
  rw [show ingestFuel = 999 + 1 from rfl]
  exact ingestGo_target_mismatch cd fs e files canon td b 999 htd hcanon hbase hne

theorem c1_witness :
    c1E1.target_dir = some c1Base ∧
    add_files_recursive c1Cd c1Fs1 c1E1 [c1P2] none =
      Except.error (IngestErr.targetMismatch c1Base c1P2) :=
  ⟨by decide,
   c1_base_growth_rejected c1Cd c1Fs1 c1E1 [c1P2] [c1P2] c1Base c1P2
     (by rfl) (by rfl) (by rfl) (by decide)⟩

/-- Claim C1 counterexample: the spec example's literal first step —
ingesting the lone file `/home/u/proj/a` — already fails, because the
single file is its own `common_path_all`, its base-relative path is empty,
and the copy destination degenerates to the entry directory (trailing
slash), on which `fs::copy` fails.  Starting instead from the realizable
state with siblings `/home/u/proj/{a,b}` ingested (`target_dir =
/home/u/proj`), the later ingestion of `/home/u/proj/sub/b` into the same
entry fails with the target-mismatch error instead of succeeding with a
recomputed common ancestor and rewritten relative paths. -/
theorem c1_counterexample :
    isOkE c1SingleStep = false ∧
    isOkE c1Step1 = true ∧
    c1E1.target_dir = some c1Base ∧
    c1E1.files = [["a"], ["b"]] ∧
    c1Step2 = Except.error (IngestErr.targetMismatch c1Base c1P2) := by
  exact ⟨rfl, rfl, rfl, rfl, rfl⟩

/-- Claim C8: when partitioning a diff by entry name, a root-level
`config.toml` is reported through the distinct config-updated flag and is
never attributed to an entry (everything attributed has more than one
component), and any changed file with more than one component whose first
component is not a known entry name makes the partitioning fail. -/
theorem c8_diff_partition (cfg : ConfinuumConfig) (files : List AbsPath) :
    (∀ m b, diff_entries cfg files = Except.ok (m, b) →
      ((["config.toml"] ∈ files → b = true) ∧
       ∀ en pl, (en, pl) ∈ m → ∀ p ∈ pl, ¬ p.length = 1)) ∧
    (∀ p, p ∈ files → ¬ p.length = 1 → containsEntry cfg (p.headD "") = false →
      isOkE (diff_entries cfg files) = false) := by
  constructor
  · intro m b h
    constructor
    · intro hmem
      exact diffEntriesGo_config_mem files [] false m b h hmem
    · exact diffEntriesGo_no_root files [] false m b
        (by intro en pl hmem; simp at hmem) h
  · intro p hp hlen hcont
    exact diffEntriesGo_orphan files [] false hp hlen hcont

theorem c8_witness :
    isOkE (diff_entries nvimCfg [["foo", "bar"]]) = false ∧ true = true := by
  constructor
  · exact (c8_diff_partition nvimCfg [["foo", "bar"]]).2 ["foo", "bar"]
      (by decide) (by decide) (by decide)
  · exact ((c8_diff_partition nvimCfg [["config.toml"], ["nvim", "init.lua"]]).1
      [("nvim", [["nvim", "init.lua"]])] true (by rfl)).1 (by decide)

/-- Claim C5: a second deploy over a state where every selected file is
already a symlink to its existing storage copy performs no remove, copy, or
symlink-creation operation and leaves the filesystem unchanged; likewise a
second undeploy over a state where no selected file is in removable
position performs no operation. -/
theorem c5_idempotent (cd : AbsPath) (sOk : AbsPath → Bool)
    (cfg cfg2 : ConfinuumConfig) (nf nf2 : Option String) (fs fs2 : FS)
    (hnf : ∀ n, nf = some n → containsEntry cfg n = true)
    (hdep : ∀ e ∈ entryFilter nf cfg, ∀ f ∈ e.files,
      fsLookup fs ((e.target_dir.getD []) ++ f) =
        some (FsObj.symlink ((cd ++ [e.name]) ++ f)) ∧
      ∃ c, fsLookup fs ((cd ++ [e.name]) ++ f) = some (FsObj.file c))
    (hnf2 : ∀ n, nf2 = some n → containsEntry cfg2 n = true)
    (hun : ∀ e ∈ entryFilter nf2 cfg2, ∀ f ∈ e.files,
      removableB cd fs2 e.name (e.target_dir.getD []) f = false) :
    deploy cd sOk cfg nf fs = (Except.ok (), ⟨fs, []⟩) ∧
    undeploy cd cfg2 nf2 fs2 = (Except.ok (), ⟨fs2, []⟩) := by
  constructor
  · have hrun : deployEntriesGo cd sOk (entryFilter nf cfg) ⟨fs, []⟩ =
        (none, ⟨fs, []⟩) := deployEntriesGo_noop hdep
    cases nf with
    | none => simp [deploy, deploy.deployRun, hrun]
    | some n => simp [deploy, deploy.deployRun, hnf n rfl, hrun]
  · have hrun : undeployEntriesGo cd (entryFilter nf2 cfg2) ⟨fs2, []⟩ =
        ⟨fs2, []⟩ := undeployEntriesGo_noop hun
    cases nf2 with
    | none => simp [undeploy, hrun]
    | some n => simp [undeploy, hnf2 n rfl, hrun]

theorem c5_witness :
    deploy sampleCd (fun _ => true) nvimCfg none deployedFs =
      (Except.ok (), ⟨deployedFs, []⟩) ∧
    undeploy sampleCd nvimCfg none plainFileFs =
      (Except.ok (), ⟨plainFileFs, []⟩) :=
  c5_idempotent sampleCd (fun _ => true) nvimCfg nvimCfg none none
    deployedFs plainFileFs
    (by intro n h; cases h)
    (by
      intro e he f hf
      have he' : e = nvimEntry := by
        simpa [entryFilter, nvimCfg, nvimEntry] using he
      subst he'
      have hf' : f = ["init.lua"] := by
        simpa [nvimEntry] using hf
      subst hf'
      exact ⟨by decide, 1, by decide⟩)
    (by intro n h; cases h)
    (by
      intro e he f hf
      have he' : e = nvimEntry := by
        simpa [entryFilter, nvimCfg, nvimEntry] using he
      subst he'
      have hf' : f = ["init.lua"] := by
        simpa [nvimEntry] using hf
      subst hf'
      decide)

/-- Claim C6: undeploy never deletes or modifies a stored object at a path
unless that path is one of its selected deployed paths and the object is
exactly a symlink to that file's expected storage path; in particular plain
files and wrong-target symlinks are left untouched. -/
theorem c6_undeploy_nondestructive (cd : AbsPath) (cfg : ConfinuumConfig)
    (nf : Option String) (fs : FS) (p : AbsPath) (obj : FsObj)
    (hp : fsLookup fs p = some obj)
    (hsafe : ∀ e ∈ entryFilter nf cfg, ∀ f ∈ e.files,
      (e.target_dir.getD []) ++ f = p →
      ¬ obj = FsObj.symlink ((cd ++ [e.name]) ++ f)) :
    fsLookup (undeploy cd cfg nf fs).2.fs p = some obj := by
  cases nf with
  | none =>
    simp only [undeploy]
    exact undeployEntriesGo_preserves _ _ hp hsafe
  | some n =>
    rw [undeploy]
    by_cases hc : containsEntry cfg n = true
    · rw [if_pos hc]
      exact undeployEntriesGo_preserves _ _ hp hsafe
    · rw [if_neg hc]
      exact hp

theorem c6_witness :
    fsLookup plainFileFs (nvimTd ++ ["init.lua"]) = some (FsObj.file 7) ∧
    fsLookup (undeploy sampleCd nvimCfg none plainFileFs).2.fs
      (nvimTd ++ ["init.lua"]) = some (FsObj.file 7) :=
  ⟨by decide,
   c6_undeploy_nondestructive sampleCd nvimCfg none plainFileFs
     (nvimTd ++ ["init.lua"]) (FsObj.file 7) (by decide) (by decide)⟩

/-- Claim C9: a dangling symlink — a stored symlink whose path does not
resolve to an existing object, in particular one whose link target equals
the expected storage path after the storage copy disappeared — is left in
place by undeploy. -/
theorem c9_dangling_symlink_kept (cd : AbsPath) (cfg : ConfinuumConfig)
    (nf : Option String) (fs : FS) (p t : AbsPath)
    (hp : fsLookup fs p = some (FsObj.symlink t))
    (hdan : fsPathExists fs p = false) :
    fsLookup (undeploy cd cfg nf fs).2.fs p = some (FsObj.symlink t) := by
  cases nf with
  | none =>
    simp only [undeploy]
    exact (undeployEntriesGo_dangling _ _ hp hdan).1
  | some n =>
    rw [undeploy]
    by_cases hc : containsEntry cfg n = true
    · rw [if_pos hc]
      exact (undeployEntriesGo_dangling _ _ hp hdan).1
    · rw [if_neg hc]
      exact hp

theorem c9_witness :
    fsLookup danglingFs (nvimTd ++ ["init.lua"]) =
      some (FsObj.symlink (sampleCd ++ ["nvim", "init.lua"])) ∧
    fsPathExists danglingFs (nvimTd ++ ["init.lua"]) = false ∧
    fsLookup (undeploy sampleCd nvimCfg none danglingFs).2.fs
      (nvimTd ++ ["init.lua"]) =
      some (FsObj.symlink (sampleCd ++ ["nvim", "init.lua"])) :=
  ⟨by decide, by decide,
   c9_dangling_symlink_kept sampleCd nvimCfg none danglingFs
     (nvimTd ++ ["init.lua"]) (sampleCd ++ ["nvim", "init.lua"])
     (by decide) (by decide)⟩

/-- Claim C2: every mutating command — add files, new entry, delete entry,
remove files — that fetches and finds the merge analysis not up-to-date
fails with the divergence error before mutating anything, leaving the
config file, the filesystem, and the local branch state exactly as before
(for delete and remove, provided their read-only pre-checks pass). -/
theorem c2_divergence_guard (cd : AbsPath) (sOk : AbsPath → Bool) (env : GitEnv)
    (w : World) (hdiv : ¬ env.analysis = MergeAnalysisKind.upToDate) :
    (∀ name files push,
      (addCmd cd sOk env name files push w).1 = Except.error CmdErr.remoteChanges ∧
      preservedW w (addCmd cd sOk env name files push w).2) ∧
    (∀ name files push,
      (newCmd cd env name files push w).1 = Except.error CmdErr.remoteChanges ∧
      preservedW w (newCmd cd env name files push w).2) ∧
    (∀ name nc nr push uc cfg, loadCfg w = Except.ok cfg →
      containsEntry cfg name = true →
      (deleteCmd env cd name nc nr push uc w).1 = Except.error CmdErr.remoteChanges ∧
      preservedW w (deleteCmd env cd name nc nr push uc w).2) ∧
    (∀ name files nc nr push uc cfg x, loadCfg w = Except.ok cfg →
      removePhase1 cd cfg w.fs name files = Except.ok x →
      (removeCmd cd sOk env name files nc nr push uc w).1 =
        Except.error CmdErr.remoteChanges ∧
      preservedW w (removeCmd cd sOk env name files nc nr push uc w).2) := by
  refine ⟨?_, ?_, ?_, ?_⟩
  · intro name files push
    constructor <;> simp [addCmd, hdiv, preservedW, fetchRemote]
  · intro name files push
    constructor <;> simp [newCmd, hdiv, preservedW, fetchRemote]
  · intro name nc nr push uc cfg hload hcont
    constructor <;>
      simp [deleteCmd, hload, hcont, hdiv, preservedW, fetchRemote]
  · intro name files nc nr push uc cfg x hload hphase
    obtain ⟨entry, canon⟩ := x
    constructor <;>
      simp [removeCmd, hload, hphase, hdiv, preservedW, fetchRemote]

theorem c2_witness :
    (¬ conflictEnv.analysis = MergeAnalysisKind.upToDate) ∧
    (addCmd sampleCd (fun _ => true) conflictEnv "nvim" [] false baseW).1 =
      Except.error CmdErr.remoteChanges ∧
    (newCmd sampleCd conflictEnv "zsh" none false baseW).1 =
      Except.error CmdErr.remoteChanges ∧
    (deleteCmd conflictEnv sampleCd "nvim" true false false true baseW).1 =
      Except.error CmdErr.remoteChanges ∧
    (removeCmd sampleCd (fun _ => true) conflictEnv "nvim" [] true false false
      true baseW).1 = Except.error CmdErr.remoteChanges := by
  have h := c2_divergence_guard sampleCd (fun _ => true) conflictEnv baseW
    (by decide)
  refine ⟨by decide, (h.1 "nvim" [] false).1, (h.2.1 "zsh" none false).1, ?_, ?_⟩
  · exact (h.2.2.1 "nvim" true false false true (loadSetNames nvimCfg)
      (by rfl) (by decide)).1
  · exact (h.2.2.2 "nvim" [] true false false true (loadSetNames nvimCfg)
      (⟨"nvim", some nvimTd, [["init.lua"]]⟩, []) (by rfl) (by rfl)).1

/-- Claim C3: when update's three-way merge reports conflicts, update
returns without error having created no commit (the fresh commit id is
nowhere in the repository), pushed nothing (the remote branch is
unchanged), checked the conflicted index out into the working tree, and
left the previous HEAD in place and reachable. -/
theorem c3_conflict_abort_nondestructive (cd : AbsPath) (sOk : AbsPath → Bool)
    (env : GitEnv) (w : World) (cfg : ConfinuumConfig)
    (z : List (String × List AbsPath) × Bool)
    (hload : loadCfg w = Except.ok cfg)
    (hdiff : diff_entries cfg env.diffPaths = Except.ok z)
    (han : env.analysis = MergeAnalysisKind.normal)
    (hcon : env.mergeConflicts = true)
    (hhead : w.head ∈ w.commits)
    (hfresh : ¬ env.newCommitId ∈ w.commits)
    (hfne : ¬ env.newCommitId = env.fetchedCommit) :
    (updateCmd cd sOk env w).1 = Except.ok () ∧
    (updateCmd cd sOk env w).2.head = w.head ∧
    w.head ∈ (updateCmd cd sOk env w).2.commits ∧
    (¬ env.newCommitId ∈ (updateCmd cd sOk env w).2.commits) ∧
    (updateCmd cd sOk env w).2.remoteMain = w.remoteMain ∧
    (updateCmd cd sOk env w).2.checkedOut = CheckoutState.conflictedIndex := by
  have hrw : updateCmd cd sOk env w =
      (Except.ok (),
        { fetchRemote env
            { w with fs := (undeployEntriesGo cd (entryFilter none cfg) ⟨w.fs, []⟩).fs }
          with checkedOut := CheckoutState.conflictedIndex }) := by
    simp [updateCmd, hload, runUndeploy, undeploy, hdiff, han, hcon]
  rw [hrw]
  refine ⟨rfl, by simp [fetchRemote], ?_, ?_, by simp [fetchRemote],
    by simp [fetchRemote]⟩
  · by_cases hm : env.fetchedCommit ∈ w.commits <;>
      simp [fetchRemote, hm, hhead]
  · by_cases hm : env.fetchedCommit ∈ w.commits <;>
      simp [fetchRemote, hm, hfresh, hfne]

theorem c3_witness :
    (updateCmd sampleCd (fun _ => true) conflictEnv baseW).1 = Except.ok () ∧
    (updateCmd sampleCd (fun _ => true) conflictEnv baseW).2.head = baseW.head ∧
    baseW.head ∈ (updateCmd sampleCd (fun _ => true) conflictEnv baseW).2.commits ∧
    (¬ conflictEnv.newCommitId ∈
      (updateCmd sampleCd (fun _ => true) conflictEnv baseW).2.commits) ∧
    (updateCmd sampleCd (fun _ => true) conflictEnv baseW).2.remoteMain =
      baseW.remoteMain ∧
    (updateCmd sampleCd (fun _ => true) conflictEnv baseW).2.checkedOut =
      CheckoutState.conflictedIndex :=
  c3_conflict_abort_nondestructive sampleCd (fun _ => true) conflictEnv baseW
    (loadSetNames nvimCfg) ([], false) (by rfl) (by rfl) (by decide) (by decide)
    (by decide) (by decide) (by decide)

theorem runDeploy_counts (cd : AbsPath) (sOk : AbsPath → Bool)
    (cfg : ConfinuumConfig) (nf : Option String) (w : World) :
    (runDeploy cd sOk cfg nf w).2.deployRuns = w.deployRuns + 1 := by
  rcases h : (deploy cd sOk cfg nf w.fs).1 with _ | _ <;> simp [runDeploy, h]

/-- Claim C7 (amended): update re-invokes deploy before returning on the
up-to-date, unborn, no-analysis, fast-forward, and
successful-merge-with-successful-push paths; the conflict-aborted path (and
the unknown-analysis and failed-push paths) returns without re-invoking
deploy. -/
theorem c7_deploy_reinvoked (cd : AbsPath) (sOk : AbsPath → Bool)
    (env : GitEnv) (w : World) (cfg : ConfinuumConfig)
    (z : List (String × List AbsPath) × Bool)
    (hload : loadCfg w = Except.ok cfg)
    (hdiff : diff_entries cfg env.diffPaths = Except.ok z)
    (hpath : env.analysis = MergeAnalysisKind.upToDate ∨
      env.analysis = MergeAnalysisKind.unborn ∨
      env.analysis = MergeAnalysisKind.noneAnalysis ∨
      env.analysis = MergeAnalysisKind.fastForward ∨
      (env.analysis = MergeAnalysisKind.normal ∧ env.mergeConflicts = false ∧
        env.pushOk = true)) :
    (updateCmd cd sOk env w).2.deployRuns = w.deployRuns + 1 ∧
    ((env.analysis = MergeAnalysisKind.normal ∧ env.mergeConflicts = true) →
      False) := by
  constructor
  · rcases hpath with h | h | h | h | ⟨h, hc, hp⟩
    · simp [updateCmd, hload, runUndeploy, undeploy, hdiff, h, runDeploy_counts,
        fetchRemote]
    · simp [updateCmd, hload, runUndeploy, undeploy, hdiff, h, runDeploy_counts,
        fetchRemote]
    · simp [updateCmd, hload, runUndeploy, undeploy, hdiff, h, runDeploy_counts,
        fetchRemote]
    · simp [updateCmd, hload, runUndeploy, undeploy, hdiff, h, runDeploy_counts,
        fetchRemote]
    · simp [updateCmd, hload, runUndeploy, undeploy, hdiff, h, hc, hp,
        runDeploy_counts, commitAll, fetchRemote]
  · rintro ⟨h, hc⟩
    rcases hpath with h' | h' | h' | h' | ⟨h', hc', hp'⟩
    · rw [h] at h'; cases h'
    · rw [h] at h'; cases h'
    · rw [h] at h'; cases h'
    · rw [h] at h'; cases h'
    · rw [hc] at hc'; cases hc'

theorem c7_witness :
    (updateCmd sampleCd (fun _ => true) upToDateEnv baseW).2.deployRuns =
      baseW.deployRuns + 1 :=
  (c7_deploy_reinvoked sampleCd (fun _ => true) upToDateEnv baseW
    (loadSetNames nvimCfg) ([], false) (by rfl) (by rfl)
    (Or.inl (by decide))).1

/-- Claim C7 counterexample: on the conflict-aborted path the update
returns successfully without having invoked deploy at all — refuting
"every terminating execution path re-invokes deploy". -/
theorem c7_counterexample :
    (updateCmd sampleCd (fun _ => true) conflictEnv baseW).1 = Except.ok () ∧
    (updateCmd sampleCd (fun _ => true) conflictEnv baseW).2.deployRuns =
      baseW.deployRuns := by
  exact ⟨rfl, rfl⟩
